import Mathlib

/- Shallow embedding of the doozer CLI (src/tools/src/doozer.py): the exit
code logic of the build-like commands, the build-metrics aggregation in
print_build_metrics, and spec-modelled collaborators (the parallel executor
and the registry push operation) that live in the ocp_cd_tools package and
are not under src/. -/

namespace Doozer

/-- Terminal states of a koji task (the values of koji.TASK_STATES). -/
inductive TaskState where
  | free
  | openTask
  | closed
  | canceled
  | assigned
  | failedTask
  deriving DecidableEq

/-- One koji task-info record as print_build_metrics consumes it: the optional
id field, the task state, and the three timestamps. A timestamp field is
`some` exactly when the dict holds a numeric value under the key (which is
what _taskinfo_has_timestamp tests); timestamps are integer epoch seconds. -/
structure TaskInfo where
  id : Option Nat
  state : TaskState
  create_ts : Option Int
  start_ts : Option Int
  completion_ts : Option Int
  deriving DecidableEq

/-- Embeds _taskinfo_has_timestamp: the named timestamp exists in the
taskinfo dict and is a Number. -/
def _taskinfo_has_timestamp (ts : Option Int) : Bool :=
  ts.isSome

/-- The retention test of the first loop of print_build_metrics: a record is
kept unless it lacks an id, its state is not CLOSED, or one of the three
timestamps is missing (the source deletes it from watch_task_info
otherwise). -/
def taskInfoComplete (info : TaskInfo) : Bool :=
  info.id.isSome && decide (info.state = TaskState.closed) &&
    _taskinfo_has_timestamp info.create_ts &&
    _taskinfo_has_timestamp info.start_ts &&
    _taskinfo_has_timestamp info.completion_ts

/-- watch_task_info after the deletion loop: only complete CLOSED records
remain. -/
def filterWatchTaskInfo (l : List TaskInfo) : List TaskInfo :=
  l.filter taskInfoComplete

/-- A task record all of whose timestamps are known (the shape of every
record that survives the deletion loop). -/
structure TimingRec where
  create_ts : Int
  start_ts : Int
  completion_ts : Int
  deriving DecidableEq

def extractTiming (i : TaskInfo) : Option TimingRec :=
  match i.create_ts, i.start_ts, i.completion_ts with
  | some c, some s, some f => some ⟨c, s, f⟩
  | _, _, _ => none

def filteredTimings (l : List TaskInfo) : List TimingRec :=
  (filterWatchTaskInfo l).filterMap extractTiming

/-- Running state of the aggregation loop of print_build_metrics.
min_create_ts starts at float('inf'), embedded as none; max_completion_ts
starts at 0; both aggregate sums start at 0. -/
structure AggState where
  min_create_ts : Option Int
  max_completion_ts : Int
  aggregate_build_secs : Int
  aggregate_wait_secs : Int
  deriving DecidableEq

def aggInit : AggState := ⟨none, 0, 0, 0⟩

/-- One iteration of the aggregation loop: min_create_ts := min(create_ts,
min_create_ts) (min with infinity picks create_ts), max_completion_ts :=
max(completion_ts, max_completion_ts), and the build/wait sums grow by
completion-start and start-create. -/
def aggStep (s : AggState) (r : TimingRec) : AggState :=
  ⟨some (match s.min_create_ts with
         | none => r.create_ts
         | some m => min r.create_ts m),
   max r.completion_ts s.max_completion_ts,
   s.aggregate_build_secs + (r.completion_ts - r.start_ts),
   s.aggregate_wait_secs + (r.start_ts - r.create_ts)⟩

def runAgg (rs : List TimingRec) : AggState :=
  rs.foldl aggStep aggInit

/-- Inner for-loop over tasks at one minute boundary ts: true when some task
was created but not started yet, create_ts <= ts <= start_ts. The break in
the source makes a boundary count at most once however many tasks wait. -/
def isWaitingAt (rs : List TimingRec) (ts : Int) : Bool :=
  rs.any (fun r => decide (r.create_ts ≤ ts) && decide (ts ≤ r.start_ts))

/-- Number of iterations of xrange(a, b, 60): values a, a+60, ... strictly
below b. -/
def elapsedSteps (a b : Int) : Nat :=
  ((b - a).toNat + 59) / 60

/-- The elapsed-wait-minutes walk, one recursion step per xrange iteration,
mirroring the source's accumulation with its inner break. -/
def waitLoop (rs : List TimingRec) : Int → Nat → Nat
  | _, 0 => 0
  | ts, n + 1 => (if isWaitingAt rs ts then 1 else 0) + waitLoop rs (ts + 60) n

/-- Boundaries a, a+60, ..., n of them. -/
def boundariesFrom (a : Int) (n : Nat) : List Int :=
  (List.range n).map (fun (k : Nat) => a + 60 * (k : Int))

/-- The boundary timestamps visited by xrange(a, b, 60): from a, in steps of
60 seconds, strictly below b. -/
def minuteBoundaries (a b : Int) : List Int :=
  boundariesFrom a (elapsedSteps a b)

/-- Observable outcome of print_build_metrics: the number of surviving tasks,
the logged aggregates, and the image_build_metrics record appended to the run
log when the filtered set is non-empty (recordFields lists the key/value
pairs passed to runtime.add_record, in order). diagnosticNote is the
"Unable to determine timestamps" message of the else branch. -/
structure MetricsOutput where
  successCount : Nat
  aggregate_build_secs : Int
  aggregate_wait_secs : Int
  min_create_ts : Option Int
  max_completion_ts : Int
  elapsed_wait_minutes : Nat
  recordFields : Option (List (String × Int))
  diagnosticNote : Bool
  deriving DecidableEq

/-- Embedding of print_build_metrics. The source guards the wait walk with
`if watch_task_info:`; that guard is equivalent to min_create_ts having left
its float('inf') start, which is how the branch is selected here (the
equivalence is proved below). -/
def print_build_metrics (watch_task_info : List TaskInfo) : MetricsOutput :=
  let kept := filterWatchTaskInfo watch_task_info
  let rs := filteredTimings watch_task_info
  let st := runAgg rs
  match st.min_create_ts with
  | none =>
      ⟨kept.length, st.aggregate_build_secs, st.aggregate_wait_secs, none,
       st.max_completion_ts, 0, none, true⟩
  | some a =>
      let w := waitLoop rs a (elapsedSteps a st.max_completion_ts)
      ⟨kept.length, st.aggregate_build_secs, st.aggregate_wait_secs, some a,
       st.max_completion_ts, w,
       some [("elapsed_wait_minutes", (w : Int)),
             ("elapsed_total_minutes", Int.tdiv (st.max_completion_ts - a) 60),
             ("task_count", (kept.length : Int))],
       false⟩

/-- Formalisation of the wait walk exactly as the claim words it: whole-minute
boundaries from min(create) to max(completion) with BOTH endpoint comparisons
inclusive, so every ts = min + 60k with ts <= max is visited. Kept side by
side with the source's walk for the refinement comparison. -/
def claimedBoundaries (a b : Int) : List Int :=
  (List.range ((b - a).toNat / 60 + 1)).map (fun (k : Nat) => a + 60 * (k : Int))

/-- The wasted-wait estimate as the claim words it (inclusive walk). -/
def claimedElapsedWaitMinutes (l : List TaskInfo) : Nat :=
  let rs := filteredTimings l
  let st := runAgg rs
  match st.min_create_ts with
  | none => 0
  | some a =>
      ((claimedBoundaries a st.max_completion_ts).filter (isWaitingAt rs)).length

/-- The retention test exactly as the claim words it: terminal status CLOSED
and all three timestamps present (no mention of the id field). Kept side by
side with taskInfoComplete for the refinement comparison. -/
def claimedKeep (i : TaskInfo) : Bool :=
  decide (i.state = TaskState.closed) && i.create_ts.isSome &&
    i.start_ts.isSome && i.completion_ts.isSome

/-- For a list of target keys zipped against their per-target results, the
keys whose result is falsy: `[m.distgit_key for m, r in zip(metas, results)
if not r]`. -/
def failedKeys (keys : List String) (results : List Bool) : List String :=
  ((keys.zip results).filter (fun p => !p.2)).map (fun p => p.1)

/-- Exit status and observable side conditions of a build-like command. -/
structure RpmsBuildRun where
  exitCode : Nat
  poolStarted : Bool
  reportedNoWork : Bool
  deriving DecidableEq

/-- Embedding of the rpms:build command body after runtime initialization:
with no rpms selected it logs "No RPMs found" and exits 0 before
parallel_exec; otherwise it runs the pool, and exits 1 when any build failed
(falling through to exit status 0 when none did). -/
def rpms_build_run (rpm_metas : List String) (results : List Bool) :
    RpmsBuildRun :=
  if rpm_metas.isEmpty then ⟨0, false, true⟩
  else ⟨if (failedKeys rpm_metas results).isEmpty then 0 else 1, true, false⟩

/-- One image of the group, with its distgit key and the config.push.late
flag. -/
structure ImageMeta where
  distgit_key : String
  late : Bool
  deriving DecidableEq

/-- Modelled from the spec: DistGitRepo.push_image lives in ocp_cd_tools and
is not under src/. Per spec 4.5, late targets "are deliberately excluded
from the main push wave and pushed only in a second pass": a call without
push_late pushes a non-late image, and a call with push_late=True pushes a
late image; the value is the list of image keys the call pushes. -/
def push_image (img : ImageMeta) (push_late : Bool) : List String :=
  if img.late == push_late then [img.distgit_key] else []

/-- Modelled from the spec: DistGitRepo.build_container (ocp_cd_tools, not
under src/) pushes each image to the requested registries as its build
completes; per spec 4.5 this main wave excludes late images. The value is
the list of image keys the call pushes. -/
def build_container_pushes (img : ImageMeta) : List String :=
  if img.late then [] else [img.distgit_key]

def concatMap (f : α → List β) : List α → List β
  | [] => []
  | x :: xs => f x ++ concatMap f xs

/-- Exit status, pool use, and ordered push activity of images:build. The
pushes of the main (build) wave all precede latePushes, which the source
performs in a loop only reached after results.get() and the failure check. -/
structure ImagesBuildRun where
  exitCode : Nat
  poolStarted : Bool
  mainPushes : List String
  latePushes : List String
  reportedNoWork : Bool
  deriving DecidableEq

/-- Embedding of the images:build command body after runtime initialization:
no images selected logs "No images found" and exits 1; no repo source exits
1; otherwise the pool runs build_container over every image, and on any
failure the command exits 1 before the late-push loop; on full success every
image goes through push_image(..., push_late=True). -/
def images_build_run (image_metas : List ImageMeta) (hasRepo : Bool)
    (results : List Bool) : ImagesBuildRun :=
  if image_metas.isEmpty then ⟨1, false, [], [], true⟩
  else if !hasRepo then ⟨1, false, [], [], false⟩
  else
    let mainPushes := concatMap build_container_pushes image_metas
    if (failedKeys (image_metas.map (fun m => m.distgit_key)) results).isEmpty
    then ⟨0, true, mainPushes, concatMap (fun i => push_image i true) image_metas, false⟩
    else ⟨1, true, mainPushes, [], false⟩

/-- Exit status and ordered push activity of images:push; mainPushes all
precede latePushes (the late loop only runs after the main wave's
results.get() and failure check). -/
structure ImagesPushRun where
  exitCode : Nat
  mainPushes : List String
  latePushes : List String
  deriving DecidableEq

/-- Embedding of the images:push command body: with no destination registry
it exits 1; unless --late-only, the main wave calls push_image (without
push_late) on every image and exits 1 on any failure before the late loop;
the late loop calls push_image(..., push_late=True) on those images whose
config.push.late is True. -/
def images_push_run (image_metas : List ImageMeta) (late_only : Bool)
    (results : List Bool) (hasRegistry : Bool) : ImagesPushRun :=
  if !hasRegistry then ⟨1, [], []⟩
  else if late_only then
    ⟨0, [], concatMap (fun i => if i.late then push_image i true else []) image_metas⟩
  else
    let mainPushes := concatMap (fun i => push_image i false) image_metas
    if (failedKeys (image_metas.map (fun m => m.distgit_key)) results).isEmpty
    then ⟨0, mainPushes,
          concatMap (fun i => if i.late then push_image i true else []) image_metas⟩
    else ⟨1, mainPushes, []⟩

/-- Result dict of Image.verify_image as images:verify consumes it. -/
structure VerifyResult where
  status : String
  deriving DecidableEq

/-- Embedding of the accounting tail of images:verify: failed_images are the
results whose status is "failed", and the command exits with their count. -/
def images_verify_exit (results : List VerifyResult) : Nat :=
  (results.filter (fun r => r.status == "failed")).length

/-- Per-target outcome produced by worker execution. -/
structure OperationResult (β : Type) where
  success : Bool
  value : Option β
  deriving DecidableEq

/-- Outcome of running the operation on one target: a raised exception or a
cooperative cancellation is modelled as none and becomes a failed
OperationResult rather than a dropped one. -/
def runOne (op : α → Option β) (t : α) : OperationResult β :=
  match op t with
  | some v => ⟨true, some v⟩
  | none => ⟨false, none⟩

def nth : List γ → Nat → Option γ
  | [], _ => none
  | x :: _, 0 => some x
  | _ :: xs, n + 1 => nth xs n

def updateSlot : List (Option γ) → Nat → γ → List (Option γ)
  | [], _, _ => []
  | _ :: xs, 0, v => some v :: xs
  | x :: xs, n + 1, v => x :: updateSlot xs n v

/-- Modelled from the spec: Runtime.parallel_exec (the ParallelExecutor)
lives in ocp_cd_tools and is not under src/. Per spec 4.2 it runs the
operation once per target on a worker pool and returns results in input
order regardless of completion order. The pool is modelled by a result slot
per target, filled in an arbitrary completion order given by the index list
order. -/
def parallel_exec (op : α → Option β) (targets : List α) (order : List Nat) :
    List (Option (OperationResult β)) :=
  order.foldl
    (fun slots i =>
      match nth targets i with
      | some t => updateSlot slots i (runOne op t)
      | none => slots)
    (List.replicate targets.length none)

/-- Embedding of the version normalization at the top of rpms:build:
`if version.startswith('v'): version = version[1:]`, on the version string
as its character sequence. -/
def rpms_build_version (version : List Char) : List Char :=
  match version with
  | [] => []
  | c :: rest => if c = 'v' then rest else c :: rest

/-- The spec's three-task example: (create, start, completion) = (0,0,10),
(5,5,15), (100,110,120), all CLOSED with ids. -/
def exThree : List TaskInfo :=
  [⟨some 1, TaskState.closed, some 0, some 0, some 10⟩,
   ⟨some 2, TaskState.closed, some 5, some 5, some 15⟩,
   ⟨some 3, TaskState.closed, some 100, some 110, some 120⟩]

/-- A single CLOSED task that waits the entire run: create=0, start=60,
completion=60. -/
def exclusiveCex : TaskInfo := ⟨some 1, TaskState.closed, some 0, some 60, some 60⟩

/-- A CLOSED record with every timestamp present but no id field. -/
def noIdRec : TaskInfo := ⟨none, TaskState.closed, some 0, some 0, some 10⟩

/-- A batch in which every record is malformed: one task is not CLOSED, the
other lacks its start timestamp. -/
def malformedBatch : List TaskInfo :=
  [⟨some 7, TaskState.failedTask, some 3, some 4, some 9⟩,
   ⟨some 8, TaskState.closed, some 0, none, some 5⟩]

/- Helper lemmas about the embedding. -/

theorem filter_self_filter (p : α → Bool) (l : List α) :
    (l.filter p).filter p = l.filter p := by
  induction l with
  | nil => rfl
  | cons x xs ih =>
      by_cases h : p x = true
      · simp [List.filter_cons, h, ih]
      · simp [List.filter_cons, h, ih]

theorem foldl_build (rs : List TimingRec) : ∀ s : AggState,
    (rs.foldl aggStep s).aggregate_build_secs
      = s.aggregate_build_secs
        + ((rs.map (fun r => r.completion_ts - r.start_ts)).sum) := by
  induction rs with
  | nil => intro s; simp
  | cons r rs ih =>
      intro s
      simp only [List.foldl_cons, List.map_cons, List.sum_cons, ih]
      show (aggStep s r).aggregate_build_secs + _ = _
      simp only [aggStep]
      ring

theorem foldl_wait (rs : List TimingRec) : ∀ s : AggState,
    (rs.foldl aggStep s).aggregate_wait_secs
      = s.aggregate_wait_secs
        + ((rs.map (fun r => r.start_ts - r.create_ts)).sum) := by
  induction rs with
  | nil => intro s; simp
  | cons r rs ih =>
      intro s
      simp only [List.foldl_cons, List.map_cons, List.sum_cons, ih]
      show (aggStep s r).aggregate_wait_secs + _ = _
      simp only [aggStep]
      ring

theorem foldl_min_none (rs : List TimingRec) : ∀ s : AggState,
    ((rs.foldl aggStep s).min_create_ts = none
      ↔ (rs = [] ∧ s.min_create_ts = none)) := by
  induction rs with
  | nil => intro s; simp
  | cons r rs ih =>
      intro s
      simp only [List.foldl_cons, ih]
      simp [aggStep]

theorem foldl_min_char (rs : List TimingRec) : ∀ (s : AggState) (a : Int),
    (rs.foldl aggStep s).min_create_ts = some a →
    (s.min_create_ts = some a ∨ ∃ r ∈ rs, r.create_ts = a)
      ∧ (∀ r ∈ rs, a ≤ r.create_ts)
      ∧ (∀ m, s.min_create_ts = some m → a ≤ m) := by
  induction rs with
  | nil =>
      intro s a h
      simp only [List.foldl_nil] at h
      refine ⟨Or.inl h, by simp, ?_⟩
      intro m hm
      rw [h] at hm
      exact le_of_eq (Option.some.inj hm)
  | cons r rs ih =>
      intro s a h
      simp only [List.foldl_cons] at h
      obtain ⟨h1, h2, h3⟩ := ih (aggStep s r) a h
      cases hs : s.min_create_ts with
      | none =>
          have hv : (aggStep s r).min_create_ts = some r.create_ts := by
            simp [aggStep, hs]
          have hav : a ≤ r.create_ts := h3 r.create_ts hv
          refine ⟨?_, ?_, ?_⟩
          · cases h1 with
            | inl hl =>
                rw [hv] at hl
                exact Or.inr ⟨r, List.mem_cons_self r rs, Option.some.inj hl⟩
            | inr hr =>
                obtain ⟨r', hm, he⟩ := hr
                exact Or.inr ⟨r', List.mem_cons_of_mem r hm, he⟩
          · intro r' hr'
            rcases List.mem_cons.mp hr' with he | hm
            · rw [he]; exact hav
            · exact h2 r' hm
          · intro m hm
            exact absurd hm (by simp)
      | some m0 =>
          have hv : (aggStep s r).min_create_ts = some (min r.create_ts m0) := by
            simp [aggStep, hs]
          have hav : a ≤ min r.create_ts m0 := h3 _ hv
          refine ⟨?_, ?_, ?_⟩
          · cases h1 with
            | inl hl =>
                rw [hv] at hl
                have he := Option.some.inj hl
                rcases min_choice r.create_ts m0 with hc | hc
                · exact Or.inr ⟨r, List.mem_cons_self r rs, by rw [← he, hc]⟩
                · exact Or.inl (by rw [← hc, he])
            | inr hr =>
                obtain ⟨r', hm, he⟩ := hr
                exact Or.inr ⟨r', List.mem_cons_of_mem r hm, he⟩
          · intro r' hr'
            rcases List.mem_cons.mp hr' with he | hm
            · rw [he]; exact le_trans hav (min_le_left _ _)
            · exact h2 r' hm
          · intro m hm
            rw [← Option.some.inj hm]
            exact le_trans hav (min_le_right _ _)

theorem foldl_max_char (rs : List TimingRec) : ∀ s : AggState,
    ((rs.foldl aggStep s).max_completion_ts = s.max_completion_ts
       ∨ ∃ r ∈ rs, r.completion_ts = (rs.foldl aggStep s).max_completion_ts)
      ∧ (∀ r ∈ rs, r.completion_ts ≤ (rs.foldl aggStep s).max_completion_ts)
      ∧ s.max_completion_ts ≤ (rs.foldl aggStep s).max_completion_ts := by
  induction rs with
  | nil => intro s; exact ⟨Or.inl rfl, by simp, le_refl _⟩
  | cons r rs ih =>
      intro s
      simp only [List.foldl_cons]
      obtain ⟨h1, h2, h3⟩ := ih (aggStep s r)
      have hstep : (aggStep s r).max_completion_ts
          = max r.completion_ts s.max_completion_ts := rfl
      refine ⟨?_, ?_, ?_⟩
      · cases h1 with
        | inl hl =>
            rcases max_choice r.completion_ts s.max_completion_ts with hc | hc
            · exact Or.inr ⟨r, List.mem_cons_self r rs, by rw [hl, hstep, hc]⟩
            · exact Or.inl (by rw [hl, hstep, hc])
        | inr hr =>
            obtain ⟨r', hm, he⟩ := hr
            exact Or.inr ⟨r', List.mem_cons_of_mem r hm, he⟩
      · intro r' hr'
        rcases List.mem_cons.mp hr' with he | hm
        · rw [he]
          exact le_trans (by rw [hstep]; exact le_max_left _ _) h3
        · exact h2 r' hm
      · exact le_trans (by rw [hstep]; exact le_max_right _ _) h3

theorem boundariesFrom_succ (a : Int) (n : Nat) :
    boundariesFrom a (n + 1) = a :: boundariesFrom (a + 60) n := by
  unfold boundariesFrom
  rw [List.range_succ_eq_map, List.map_cons, List.map_map]
  congr 1
  · simp
  · apply List.map_congr_left
    intro k _
    simp only [Function.comp_apply]
    push_cast
    ring

theorem waitLoop_eq (rs : List TimingRec) (n : Nat) : ∀ a : Int,
    waitLoop rs a n = ((boundariesFrom a n).filter (isWaitingAt rs)).length := by
  induction n with
  | zero => intro a; simp [waitLoop, boundariesFrom]
  | succ n ih =>
      intro a
      rw [boundariesFrom_succ]
      cases h : isWaitingAt rs a with
      | true => simp [waitLoop, h, List.filter_cons, ih (a + 60), Nat.add_comm]
      | false => simp [waitLoop, h, List.filter_cons, ih (a + 60)]

theorem print_build_field (l : List TaskInfo) :
    (print_build_metrics l).aggregate_build_secs
      = (runAgg (filteredTimings l)).aggregate_build_secs := by
  cases h : (runAgg (filteredTimings l)).min_create_ts <;>
    simp [print_build_metrics, h]

theorem print_wait_field (l : List TaskInfo) :
    (print_build_metrics l).aggregate_wait_secs
      = (runAgg (filteredTimings l)).aggregate_wait_secs := by
  cases h : (runAgg (filteredTimings l)).min_create_ts <;>
    simp [print_build_metrics, h]

theorem filterWatch_idem (l : List TaskInfo) :
    filterWatchTaskInfo (filterWatchTaskInfo l) = filterWatchTaskInfo l :=
  filter_self_filter _ l

theorem filteredTimings_filter (l : List TaskInfo) :
    filteredTimings (filterWatchTaskInfo l) = filteredTimings l := by
  unfold filteredTimings
  rw [filterWatch_idem]

theorem isWaitingAt_eq (rs : List TimingRec) (ts : Int) :
    isWaitingAt rs ts
      = decide (∃ r ∈ rs, r.create_ts ≤ ts ∧ ts ≤ r.start_ts) := by
  rw [Bool.eq_iff_iff, decide_eq_true_iff]
  unfold isWaitingAt
  rw [List.any_eq_true]
  constructor
  · rintro ⟨r, hm, hp⟩
    simp only [Bool.and_eq_true, decide_eq_true_iff] at hp
    exact ⟨r, hm, hp⟩
  · rintro ⟨r, hm, h1, h2⟩
    exact ⟨r, hm, by simp [h1, h2]⟩

theorem failedKeys_isEmpty (keys : List String) : ∀ results : List Bool,
    keys.length = results.length →
    ((failedKeys keys results).isEmpty = true ↔ ∀ b ∈ results, b = true) := by
  induction keys with
  | nil =>
      intro results h
      cases results with
      | nil => simp [failedKeys]
      | cons b bs => simp at h
  | cons k ks ih =>
      intro results h
      cases results with
      | nil => simp at h
      | cons b bs =>
          have h' : ks.length = bs.length := by simpa using h
          cases b with
          | true =>
              have hstep : failedKeys (k :: ks) (true :: bs) = failedKeys ks bs := by
                simp [failedKeys, List.filter_cons]
              rw [hstep, ih bs h']
              simp
          | false =>
              have hstep : (failedKeys (k :: ks) (false :: bs)).isEmpty = false := by
                simp [failedKeys, List.filter_cons]
              rw [hstep]
              simp

theorem concatMap_push_main (images : List ImageMeta) :
    concatMap (fun i => push_image i false) images
      = (images.filter (fun i => !i.late)).map (fun i => i.distgit_key) := by
  induction images with
  | nil => rfl
  | cons i is ih =>
      rw [show concatMap (fun i => push_image i false) (i :: is)
            = push_image i false ++ concatMap (fun i => push_image i false) is
          from rfl, ih]
      cases h : i.late with
      | true => simp [push_image, h, List.filter_cons]
      | false => simp [push_image, h, List.filter_cons]

theorem concatMap_build_main (images : List ImageMeta) :
    concatMap build_container_pushes images
      = (images.filter (fun i => !i.late)).map (fun i => i.distgit_key) := by
  induction images with
  | nil => rfl
  | cons i is ih =>
      rw [show concatMap build_container_pushes (i :: is)
            = build_container_pushes i ++ concatMap build_container_pushes is
          from rfl, ih]
      cases h : i.late with
      | true => simp [build_container_pushes, h, List.filter_cons]
      | false => simp [build_container_pushes, h, List.filter_cons]

theorem concatMap_push_late (images : List ImageMeta) :
    concatMap (fun i => push_image i true) images
      = (images.filter (fun i => i.late)).map (fun i => i.distgit_key) := by
  induction images with
  | nil => rfl
  | cons i is ih =>
      rw [show concatMap (fun i => push_image i true) (i :: is)
            = push_image i true ++ concatMap (fun i => push_image i true) is
          from rfl, ih]
      cases h : i.late with
      | true => simp [push_image, h, List.filter_cons]
      | false => simp [push_image, h, List.filter_cons]

theorem concatMap_push_late_guarded (images : List ImageMeta) :
    concatMap (fun i => if i.late then push_image i true else []) images
      = (images.filter (fun i => i.late)).map (fun i => i.distgit_key) := by
  induction images with
  | nil => rfl
  | cons i is ih =>
      rw [show concatMap (fun i => if i.late then push_image i true else []) (i :: is)
            = (if i.late then push_image i true else [])
              ++ concatMap (fun i => if i.late then push_image i true else []) is
          from rfl, ih]
      cases h : i.late with
      | true => simp [push_image, h, List.filter_cons]
      | false => simp [push_image, h, List.filter_cons]

theorem length_updateSlot (l : List (Option γ)) : ∀ (n : Nat) (v : γ),
    (updateSlot l n v).length = l.length := by
  induction l with
  | nil => intro n v; rfl
  | cons x xs ih =>
      intro n v
      cases n with
      | zero => rfl
      | succ n => simp [updateSlot, ih]

theorem nth_updateSlot_self (l : List (Option γ)) : ∀ (n : Nat) (v : γ),
    n < l.length → nth (updateSlot l n v) n = some (some v) := by
  induction l with
  | nil => intro n v h; simp at h
  | cons x xs ih =>
      intro n v h
      cases n with
      | zero => rfl
      | succ n =>
          show nth (updateSlot xs n v) n = some (some v)
          exact ih n v (by simp at h; omega)

theorem nth_updateSlot_ne (l : List (Option γ)) : ∀ (n m : Nat) (v : γ),
    m ≠ n → nth (updateSlot l n v) m = nth l m := by
  induction l with
  | nil => intro n m v h; rfl
  | cons x xs ih =>
      intro n m v h
      cases n with
      | zero =>
          cases m with
          | zero => exact absurd rfl h
          | succ m => rfl
      | succ n =>
          cases m with
          | zero => rfl
          | succ m =>
              show nth (updateSlot xs n v) m = nth xs m
              exact ih n m v (by omega)

theorem nth_eq_none (l : List γ) : ∀ n : Nat, l.length ≤ n → nth l n = none := by
  induction l with
  | nil => intro n h; rfl
  | cons x xs ih =>
      intro n h
      cases n with
      | zero => simp at h
      | succ n => exact ih n (by simp at h; omega)

theorem nth_isSome (l : List γ) : ∀ n : Nat, n < l.length →
    ∃ x, nth l n = some x := by
  induction l with
  | nil => intro n h; simp at h
  | cons x xs ih =>
      intro n h
      cases n with
      | zero => exact ⟨x, rfl⟩
      | succ n => exact ih n (by simp at h; omega)

theorem nth_map (f : γ → δ) : ∀ (l : List γ) (n : Nat),
    nth (l.map f) n = (nth l n).map f := by
  intro l
  induction l with
  | nil => intro n; rfl
  | cons x xs ih =>
      intro n
      cases n with
      | zero => rfl
      | succ n => exact ih n

theorem nth_ext : ∀ l1 l2 : List γ, (∀ n, nth l1 n = nth l2 n) → l1 = l2 := by
  intro l1
  induction l1 with
  | nil =>
      intro l2 h
      cases l2 with
      | nil => rfl
      | cons y ys => have h0 := h 0; simp [nth] at h0
  | cons x xs ih =>
      intro l2 h
      cases l2 with
      | nil => have h0 := h 0; simp [nth] at h0
      | cons y ys =>
          have h0 := h 0
          simp [nth] at h0
          rw [h0]
          rw [ih ys (fun n => h (n + 1))]

theorem parallel_exec_nth (op : α → Option β) (targets : List α)
    (order : List Nat) : ∀ (slots : List (Option (OperationResult β)))
    (j : Nat) (t : α), nth targets j = some t → j < slots.length →
    nth (order.foldl
        (fun slots i =>
          match nth targets i with
          | some t => updateSlot slots i (runOne op t)
          | none => slots) slots) j
      = if j ∈ order then some (some (runOne op t)) else nth slots j := by
  induction order with
  | nil => intro slots j t ht hj; simp
  | cons i rest ih =>
      intro slots j t ht hj
      simp only [List.foldl_cons]
      by_cases hji : j = i
      · subst hji
        rw [show (match nth targets j with
              | some t => updateSlot slots j (runOne op t)
              | none => slots) = updateSlot slots j (runOne op t) from by
            rw [ht]]
        rw [ih (updateSlot slots j (runOne op t)) j t ht
            (by rw [length_updateSlot]; exact hj)]
        by_cases hjr : j ∈ rest
        · simp [hjr]
        · simp [hjr, nth_updateSlot_self slots j (runOne op t) hj]
      · have hln : (match nth targets i with
              | some t' => updateSlot slots i (runOne op t')
              | none => slots).length = slots.length := by
          cases h : nth targets i with
          | some t' => simp [length_updateSlot]
          | none => rfl
        rw [ih _ j t ht (by rw [hln]; exact hj)]
        have hnth : nth (match nth targets i with
              | some t' => updateSlot slots i (runOne op t')
              | none => slots) j = nth slots j := by
          cases h : nth targets i with
          | some t' => exact nth_updateSlot_ne slots i j (runOne op t') hji
          | none => rfl
        rw [hnth]
        by_cases hjr : j ∈ rest
        · simp [hjr]
        · simp [hjr, List.mem_cons, hji]

theorem parallel_exec_length (op : α → Option β) (targets : List α)
    (order : List Nat) :
    (parallel_exec op targets order).length = targets.length := by
  unfold parallel_exec
  have h : ∀ (ord : List Nat) (slots : List (Option (OperationResult β))),
      (ord.foldl
        (fun slots i =>
          match nth targets i with
          | some t => updateSlot slots i (runOne op t)
          | none => slots) slots).length = slots.length := by
    intro ord
    induction ord with
    | nil => intro slots; rfl
    | cons i rest ih =>
        intro slots
        simp only [List.foldl_cons]
        rw [ih]
        cases h : nth targets i with
        | some t => simp [length_updateSlot]
        | none => rfl
  rw [h]
  simp

theorem parallel_exec_eq (op : α → Option β) (targets : List α)
    (order : List Nat) (hcov : ∀ j, j < targets.length → j ∈ order) :
    parallel_exec op targets order
      = targets.map (fun t => some (runOne op t)) := by
  apply nth_ext
  intro n
  by_cases hn : n < targets.length
  · obtain ⟨t, ht⟩ := nth_isSome targets n hn
    unfold parallel_exec
    rw [parallel_exec_nth op targets order (List.replicate targets.length none)
        n t ht (by simpa using hn)]
    rw [nth_map, ht]
    simp [hcov n hn]
  · have h1 : targets.length ≤ n := by omega
    rw [nth_eq_none _ n (by rw [parallel_exec_length]; exact h1),
        nth_eq_none _ n (by simpa using h1)]

/- Claim theorems. -/

/-- C1: counterexample — rpms:build with two failed targets exits 1, not 2
(the number of failed targets), so a completing build-like command does not
exit with the count of failed targets. -/
theorem c1_exit_count_cex :
    (rpms_build_run ["a", "b"] [false, false]).exitCode = 1
    ∧ (failedKeys ["a", "b"] [false, false]).length = 2
    ∧ (1 : Nat) ≠ 2 := by
  decide

/-- C1 (amended): a completing build-like command (rpms:build, images:build,
images:push) exits 0 exactly when every selected target succeeded, and 1
otherwise — one fixed failure code, not the failure count — while
images:verify exits with the number of images whose checks failed. -/
theorem c1_exit_codes :
    (∀ (rpms : List String) (results : List Bool),
        rpms.length = results.length →
        ((rpms_build_run rpms results).exitCode = 0 ↔ ∀ b ∈ results, b = true))
    ∧ (∀ (images : List ImageMeta) (results : List Bool),
        images ≠ [] → images.length = results.length →
        ((images_build_run images true results).exitCode = 0
          ↔ ∀ b ∈ results, b = true))
    ∧ (∀ (images : List ImageMeta) (results : List Bool),
        images.length = results.length →
        ((images_push_run images false results true).exitCode = 0
          ↔ ∀ b ∈ results, b = true))
    ∧ (∀ results : List VerifyResult,
        images_verify_exit results
          = (results.filter (fun r => r.status == "failed")).length) := by
  refine ⟨?_, ?_, ?_, fun results => rfl⟩
  · intro rpms results h
    unfold rpms_build_run
    by_cases he : rpms.isEmpty = true
    · rw [if_pos he]
      rw [List.isEmpty_iff] at he
      subst he
      have hr : results = [] := by
        cases results with
        | nil => rfl
        | cons b bs => simp at h
      subst hr
      simp
    · rw [if_neg he]
      rw [← failedKeys_isEmpty rpms results h]
      by_cases hf : (failedKeys rpms results).isEmpty = true
      · simp [hf]
      · simp [hf]
  · intro images results hne h
    unfold images_build_run
    rw [if_neg (by simpa [List.isEmpty_iff] using hne)]
    rw [if_neg (by simp)]
    rw [← failedKeys_isEmpty (images.map (fun m => m.distgit_key)) results
        (by simpa using h)]
    by_cases hf : (failedKeys (images.map (fun m => m.distgit_key))
        results).isEmpty = true
    · simp [hf]
    · simp [hf]
  · intro images results h
    unfold images_push_run
    rw [if_neg (by simp)]
    rw [if_neg (by simp)]
    rw [← failedKeys_isEmpty (images.map (fun m => m.distgit_key)) results
        (by simpa using h)]
    by_cases hf : (failedKeys (images.map (fun m => m.distgit_key))
        results).isEmpty = true
    · simp [hf]
    · simp [hf]

theorem c1_exit_codes_witness :
    ((rpms_build_run ["a"] [false]).exitCode = 0 ↔ ∀ b ∈ [false], b = true)
    ∧ ((images_build_run [⟨"i", false⟩] true [true]).exitCode = 0
        ↔ ∀ b ∈ [true], b = true)
    ∧ ((images_push_run [⟨"i", false⟩] false [true] true).exitCode = 0
        ↔ ∀ b ∈ [true], b = true) :=
  ⟨c1_exit_codes.1 ["a"] [false] (by decide),
   c1_exit_codes.2.1 [⟨"i", false⟩] [true] (by decide) (by decide),
   c1_exit_codes.2.2.1 [⟨"i", false⟩] [true] (by decide)⟩

/-- C2: counterexample — for a single CLOSED task with create=0, start=60,
completion=60, the source's walk (xrange semantics, upper bound excluded)
counts 1 wasted minute while the claim's both-endpoints-inclusive walk
counts 2: the claimed estimate differs from the code on this input. -/
theorem c2_wait_walk_cex :
    (print_build_metrics [exclusiveCex]).elapsed_wait_minutes = 1
    ∧ claimedElapsedWaitMinutes [exclusiveCex] = 2
    ∧ (print_build_metrics [exclusiveCex]).elapsed_wait_minutes
        ≠ claimedElapsedWaitMinutes [exclusiveCex] := by
  decide

/-- C2 (amended): for every non-empty filtered set, the wasted-wait estimate
equals the number of boundary timestamps t = minCreate + 60k with
t < maxCompletion (the walk starts at min(create) inclusive and stops
strictly before max(completion), per xrange) at which at least one record
satisfies create <= t <= start, each boundary counted once however many
records wait; minCreate is the least create timestamp of the filtered
records and, for non-negative timestamps, maxCompletion is their greatest
completion timestamp. -/
theorem c2_wait_walk (l : List TaskInfo) (a : Int)
    (hmin : (runAgg (filteredTimings l)).min_create_ts = some a)
    (hpos : ∀ r ∈ filteredTimings l, 0 ≤ r.completion_ts) :
    ((∃ r ∈ filteredTimings l, r.create_ts = a)
      ∧ (∀ r ∈ filteredTimings l, a ≤ r.create_ts))
    ∧ ((∃ r ∈ filteredTimings l,
          r.completion_ts = (runAgg (filteredTimings l)).max_completion_ts)
      ∧ (∀ r ∈ filteredTimings l,
          r.completion_ts ≤ (runAgg (filteredTimings l)).max_completion_ts))
    ∧ (print_build_metrics l).elapsed_wait_minutes
        = ((minuteBoundaries a
              (runAgg (filteredTimings l)).max_completion_ts).filter
            (fun ts => decide (∃ r ∈ filteredTimings l,
              r.create_ts ≤ ts ∧ ts ≤ r.start_ts))).length := by
  have hmin' : ((filteredTimings l).foldl aggStep aggInit).min_create_ts
      = some a := hmin
  obtain ⟨hd, hb, _⟩ := foldl_min_char (filteredTimings l) aggInit a hmin'
  have hne : filteredTimings l ≠ [] := by
    intro hnil
    rw [hnil] at hmin
    simp [runAgg, aggInit] at hmin
  obtain ⟨hm1, hm2, _⟩ := foldl_max_char (filteredTimings l) aggInit
  refine ⟨⟨?_, hb⟩, ⟨?_, hm2⟩, ?_⟩
  · cases hd with
    | inl h0 => exact absurd h0 (by simp [aggInit])
    | inr h0 => exact h0
  · cases hm1 with
    | inr h0 => exact h0
    | inl h0 =>
        obtain ⟨r0, hr0⟩ := List.exists_mem_of_ne_nil (filteredTimings l) hne
        refine ⟨r0, hr0, ?_⟩
        have h1 : r0.completion_ts
            ≤ ((filteredTimings l).foldl aggStep aggInit).max_completion_ts :=
          hm2 r0 hr0
        have h2 : 0 ≤ r0.completion_ts := hpos r0 hr0
        have h3 : ((filteredTimings l).foldl aggStep aggInit).max_completion_ts
            = 0 := by simpa [aggInit] using h0
        show r0.completion_ts
          = ((filteredTimings l).foldl aggStep aggInit).max_completion_ts
        omega
  · have hp : (print_build_metrics l).elapsed_wait_minutes
        = waitLoop (filteredTimings l) a
            (elapsedSteps a (runAgg (filteredTimings l)).max_completion_ts) := by
      simp [print_build_metrics, hmin]
    rw [hp, waitLoop_eq]
    rw [show isWaitingAt (filteredTimings l)
          = fun ts => decide (∃ r ∈ filteredTimings l,
              r.create_ts ≤ ts ∧ ts ≤ r.start_ts)
        from funext (fun ts => isWaitingAt_eq (filteredTimings l) ts)]
    rfl

theorem c2_wait_walk_witness :
    ((∃ r ∈ filteredTimings exThree, r.create_ts = 0)
      ∧ (∀ r ∈ filteredTimings exThree, 0 ≤ r.create_ts))
    ∧ ((∃ r ∈ filteredTimings exThree,
          r.completion_ts = (runAgg (filteredTimings exThree)).max_completion_ts)
      ∧ (∀ r ∈ filteredTimings exThree,
          r.completion_ts ≤ (runAgg (filteredTimings exThree)).max_completion_ts))
    ∧ (print_build_metrics exThree).elapsed_wait_minutes
        = ((minuteBoundaries 0
              (runAgg (filteredTimings exThree)).max_completion_ts).filter
            (fun ts => decide (∃ r ∈ filteredTimings exThree,
              r.create_ts ≤ ts ∧ ts ≤ r.start_ts))).length :=
  c2_wait_walk exThree 0 (by decide) (by decide)

/-- C3: for every run of the (spec-modelled) parallel executor whose
completion order covers every submitted index, the result list equals the
in-order map of per-target outcomes: exactly one result per submitted
target, the i-th result belonging to the i-th target whatever the
completion order, with a raised or cancelled operation becoming a failed
result rather than a dropped one. -/
theorem c3_parallel_results {α β : Type} (op : α → Option β)
    (targets : List α) (order : List Nat)
    (hcov : ∀ j, j < targets.length → j ∈ order) :
    parallel_exec op targets order = targets.map (fun t => some (runOne op t))
    ∧ (parallel_exec op targets order).length = targets.length :=
  ⟨parallel_exec_eq op targets order hcov,
   parallel_exec_length op targets order⟩

theorem c3_parallel_results_witness :
    parallel_exec (fun n : Nat => if n = 2 then none else some (n + 1))
        [1, 2, 3] [2, 0, 1]
      = [some ⟨true, some 2⟩, some ⟨false, none⟩, some ⟨true, some 4⟩]
    ∧ (parallel_exec (fun n : Nat => if n = 2 then none else some (n + 1))
        [1, 2, 3] [2, 0, 1]).length = 3 := by
  have h := c3_parallel_results
    (fun n : Nat => if n = 2 then none else some (n + 1)) [1, 2, 3] [2, 0, 1]
    (by decide)
  exact ⟨h.1.trans (by decide), h.2⟩

/-- C4: counterexample — images:build with zero selected images exits 1,
not 0 as the claim states for every build command. -/
theorem c4_no_work_cex :
    (images_build_run [] true []).exitCode = 1 ∧ (1 : Nat) ≠ 0 := by
  decide

/-- C4 (amended): with zero targets selected after filtering, the command
reports that no work was found and never starts the worker pool; rpms:build
then exits 0, but images:build exits 1. -/
theorem c4_no_work : ∀ (results : List Bool) (hasRepo : Bool),
    rpms_build_run [] results = ⟨0, false, true⟩
    ∧ images_build_run [] hasRepo results = ⟨1, false, [], [], true⟩ := by
  intro results hasRepo
  exact ⟨rfl, rfl⟩

/-- C5: counterexample — a CLOSED record with all three timestamps but no id
field satisfies the claim's retention test, yet the deletion loop discards
it because it also requires an id: the retained set is not exactly the
claimed one. -/
theorem c5_filter_cex :
    claimedKeep noIdRec = true
    ∧ noIdRec ∉ filterWatchTaskInfo [noIdRec] := by
  decide

/-- C5 (amended): the aggregation retains exactly the records that carry an
id, have terminal status CLOSED, and have all three timestamps present;
discarded records contribute to none of the outputs, since the whole
metrics computation depends only on the filtered set. -/
theorem c5_filter :
    (∀ (l : List TaskInfo) (i : TaskInfo),
        i ∈ filterWatchTaskInfo l
          ↔ i ∈ l ∧ i.id.isSome = true ∧ i.state = TaskState.closed
            ∧ i.create_ts.isSome = true ∧ i.start_ts.isSome = true
            ∧ i.completion_ts.isSome = true)
    ∧ (∀ l : List TaskInfo,
        print_build_metrics (filterWatchTaskInfo l) = print_build_metrics l) := by
  constructor
  · intro l i
    unfold filterWatchTaskInfo
    rw [List.mem_filter]
    simp [taskInfoComplete, _taskinfo_has_timestamp, and_assoc]
  · intro l
    unfold print_build_metrics
    rw [filteredTimings_filter, filterWatch_idem]

/-- C6: with an empty filtered record set — for instance when every record
is malformed — print_build_metrics emits an all-zero summary, appends no
metrics record, notes the diagnostic, and (being a total function, matching
the exception-free code path) does not fail the run. -/
theorem c6_empty_summary : ∀ l : List TaskInfo,
    filterWatchTaskInfo l = [] →
    print_build_metrics l = ⟨0, 0, 0, none, 0, 0, none, true⟩ := by
  intro l h
  have h2 : filteredTimings l = [] := by
    unfold filteredTimings
    rw [h]
    rfl
  simp [print_build_metrics, h, h2, runAgg, aggInit]

theorem c6_empty_summary_witness :
    print_build_metrics malformedBatch = ⟨0, 0, 0, none, 0, 0, none, true⟩ :=
  c6_empty_summary malformedBatch (by decide)

/-- C7: aggregate build seconds is the plain sum of completion-start and
aggregate wait seconds the plain sum of start-create over the filtered
records, with no deduplication of overlapping windows; on the spec's
three-task example the sums are 30 and 10. -/
theorem c7_aggregate_sums :
    (∀ l : List TaskInfo,
        (print_build_metrics l).aggregate_build_secs
          = ((filteredTimings l).map (fun r => r.completion_ts - r.start_ts)).sum
        ∧ (print_build_metrics l).aggregate_wait_secs
          = ((filteredTimings l).map (fun r => r.start_ts - r.create_ts)).sum)
    ∧ (print_build_metrics exThree).aggregate_build_secs = 30
    ∧ (print_build_metrics exThree).aggregate_wait_secs = 10 := by
  refine ⟨?_, by decide, by decide⟩
  intro l
  constructor
  · rw [print_build_field]
    simpa [runAgg, aggInit] using foldl_build (filteredTimings l) aggInit
  · rw [print_wait_field]
    simpa [runAgg, aggInit] using foldl_wait (filteredTimings l) aggInit

/-- C8: counterexample — on the spec's three-task example the record passed
to runtime.add_record has exactly the three fields elapsed_wait_minutes,
elapsed_total_minutes and task_count, and no field carries the aggregate
build seconds (30 here): the claimed five-component summary record does not
match the code. -/
theorem c8_record_cex :
    (print_build_metrics exThree).aggregate_build_secs = 30
    ∧ (print_build_metrics exThree).recordFields
        = some [("elapsed_wait_minutes", 1), ("elapsed_total_minutes", 2),
                ("task_count", 3)]
    ∧ ∀ kv ∈ [(("elapsed_wait_minutes" : String), (1 : Int)),
              ("elapsed_total_minutes", 2), ("task_count", 3)],
        kv.2 ≠ 30 := by
  decide

/-- C8 (amended): for every non-empty filtered set the audit record contains
exactly three fields — the deduplicated wasted-wait minutes, the elapsed
total minutes int((maxCompletion - minCreate)/60), and the task count; the
aggregate build and wait second totals are only logged, not recorded. -/
theorem c8_record_fields : ∀ (l : List TaskInfo) (a : Int),
    (runAgg (filteredTimings l)).min_create_ts = some a →
    (print_build_metrics l).recordFields
      = some [("elapsed_wait_minutes",
                ((print_build_metrics l).elapsed_wait_minutes : Int)),
              ("elapsed_total_minutes",
                Int.tdiv ((runAgg (filteredTimings l)).max_completion_ts - a) 60),
              ("task_count", ((filterWatchTaskInfo l).length : Int))] := by
  intro l a h
  simp [print_build_metrics, h]

theorem c8_record_fields_witness :
    (print_build_metrics exThree).recordFields
      = some [("elapsed_wait_minutes",
                ((print_build_metrics exThree).elapsed_wait_minutes : Int)),
              ("elapsed_total_minutes",
                Int.tdiv ((runAgg (filteredTimings exThree)).max_completion_ts
                  - 0) 60),
              ("task_count", ((filterWatchTaskInfo exThree).length : Int))] :=
  c8_record_fields exThree 0 (by decide)

/-- C9: in images:push the main wave pushes exactly the non-late images, and
the second pass — reached only after the whole main wave and its failure
check — pushes exactly the late ones or, on failure or when skipped,
nothing; images:build likewise pushes only non-late images during its build
wave and exactly the late ones in its trailing loop on success. A late
image is therefore never pushed during a main wave. -/
theorem c9_late_push :
    (∀ (images : List ImageMeta) (results : List Bool),
        (images_push_run images false results true).mainPushes
          = (images.filter (fun i => !i.late)).map (fun i => i.distgit_key)
        ∧ ((images_push_run images false results true).latePushes = []
            ∨ (images_push_run images false results true).latePushes
              = (images.filter (fun i => i.late)).map (fun i => i.distgit_key)))
    ∧ (∀ (images : List ImageMeta) (hasRepo : Bool) (results : List Bool),
        (images_build_run images hasRepo results).mainPushes = []
          ∨ (images_build_run images hasRepo results).mainPushes
            = (images.filter (fun i => !i.late)).map (fun i => i.distgit_key))
    ∧ (∀ (images : List ImageMeta) (hasRepo : Bool) (results : List Bool),
        (images_build_run images hasRepo results).latePushes = []
          ∨ (images_build_run images hasRepo results).latePushes
            = (images.filter (fun i => i.late)).map (fun i => i.distgit_key)) := by
  refine ⟨?_, ?_, ?_⟩
  · intro images results
    unfold images_push_run
    by_cases hf : (failedKeys (images.map (fun m => m.distgit_key))
        results).isEmpty = true
    · simp [hf, concatMap_push_main, concatMap_push_late_guarded]
    · simp [hf, concatMap_push_main]
  · intro images hasRepo results
    unfold images_build_run
    by_cases he : images.isEmpty = true
    · simp [he]
    · by_cases hr : hasRepo = true
      · by_cases hf : (failedKeys (images.map (fun m => m.distgit_key))
            results).isEmpty = true
        · simp [he, hr, hf, concatMap_build_main]
        · simp [he, hr, hf, concatMap_build_main]
      · simp [he, hr]
  · intro images hasRepo results
    unfold images_build_run
    by_cases he : images.isEmpty = true
    · simp [he]
    · by_cases hr : hasRepo = true
      · by_cases hf : (failedKeys (images.map (fun m => m.distgit_key))
            results).isEmpty = true
        · simp [he, hr, hf, concatMap_push_late]
        · simp [he, hr, hf]
      · simp [he, hr]

/-- C10: rpms:build strips one leading 'v' from --version before building,
so 'v3.4' and '3.4' yield the same version string, and a version not
beginning with 'v' is used unchanged. -/
theorem c10_version_strip :
    rpms_build_version "v3.4".data = rpms_build_version "3.4".data
    ∧ (∀ v : List Char, v.head? ≠ some 'v' → rpms_build_version v = v)
    ∧ (∀ rest : List Char, rpms_build_version ('v' :: rest) = rest) := by
  refine ⟨by decide, ?_, ?_⟩
  · intro v h
    cases v with
    | nil => rfl
    | cons c cs =>
        have hc : c ≠ 'v' := by simpa using h
        simp [rpms_build_version, hc]
  · intro rest
    simp [rpms_build_version]

theorem c10_version_strip_witness :
    rpms_build_version "3.4".data = "3.4".data
    ∧ rpms_build_version ('v' :: "3.4".data) = "3.4".data :=
  ⟨c10_version_strip.2.1 "3.4".data (by decide),
   c10_version_strip.2.2 "3.4".data⟩

end Doozer
